import Mathlib

/-!
Shallow embedding of the shodhsahayak research-proposal scraping pipeline
(the scraper module: agency resolution, date normalization, link filtering,
title classification, the three-strategy extraction engine, and the batch
orchestrator's retry/sort logic).

Modelling conventions:
* JS strings are Lean `String`s; character classes (`\s`, `\w`, `\d`) are
  modelled over their ASCII members, which covers every literal the pipeline
  manipulates.
* The machine's local time zone is taken to be UTC, so `toISOString` of a
  date parsed by date-fns at local midnight yields that same calendar date.
* `new Date(s)` applied to the strings this pipeline produces (ISO
  `yyyy-MM-dd` dates, the sentinels, raw unparsed text) is modelled as
  succeeding exactly on valid ISO `yyyy-MM-dd` strings.
* JS `Map` (insertion ordered) is an association list extended on the right.
* The `extractedAt` timestamp field (observational metadata, impure) is
  omitted from the record model.
-/

namespace Shodh

/-- ASCII members of the JS `\s` class (the only whitespace in the corpus). -/
def isJsSpace (c : Char) : Bool :=
  c = ' ' || c = '\t' || c = '\n' || c = '\r' || c = '\x0b' || c = '\x0c'

/-- Members of the JS `\w` class: word characters: ASCII letters, digits and underscore. -/
def isWordCh (c : Char) : Bool := c.isAlphanum || c = '_'

def digitVal (c : Char) : Nat := c.toNat - '0'.toNat

/-- Test whether `pat` is a prefix of `text` (exact characters). -/
def startsWithL : List Char → List Char → Bool
  | [], _ => true
  | _ :: _, [] => false
  | p :: ps, c :: cs => p = c && startsWithL ps cs

/-- Test whether `pat` occurs as a contiguous sublist of `text` (JS `String.includes`). -/
def containsL (pat : List Char) : List Char → Bool
  | [] => startsWithL pat []
  | c :: cs => startsWithL pat (c :: cs) || containsL pat cs

/-- Model of JS `s.includes(pat)`. -/
def jsIncludes (s pat : String) : Bool := containsL pat.data s.data

/-- ASCII lowercase of a string (model of JS `toLowerCase` on the corpus). -/
def lowerStr (s : String) : String := String.mk (s.data.map Char.toLower)

/-- ASCII uppercase of a string (model of JS `toUpperCase` on the corpus). -/
def upperStr (s : String) : String := String.mk (s.data.map Char.toUpper)

/-- Strip leading and trailing JS whitespace from a character list. -/
def trimL (cs : List Char) : List Char :=
  ((cs.dropWhile isJsSpace).reverse.dropWhile isJsSpace).reverse

/-- Model of JS `s.trim()`. -/
def jsTrim (s : String) : String := String.mk (trimL s.data)

/-- Collapse every run of whitespace to a single space (`replace(/\s+/g,' ')`).
The flag records whether the previous character was part of a whitespace run. -/
def collapseGo : Bool → List Char → List Char
  | _, [] => []
  | inRun, c :: cs =>
    if isJsSpace c then
      if inRun then collapseGo true cs else ' ' :: collapseGo true cs
    else c :: collapseGo false cs

/-- Model of `s.trim().replace(/\s+/g, ' ')` — the normalization `parseDate` applies. -/
def jsNormSpace (s : String) : String := String.mk (collapseGo false (trimL s.data))

/-! ## Calendar model -/

def isLeapYear (y : Nat) : Bool := (y % 4 = 0 && y % 100 ≠ 0) || y % 400 = 0

def daysInMonth (y m : Nat) : Nat :=
  if m = 2 then (if isLeapYear y then 29 else 28)
  else if m = 4 || m = 6 || m = 9 || m = 11 then 30
  else 31

def pad2 (n : Nat) : String := if n < 10 then "0" ++ toString n else toString n

def pad4 (n : Nat) : String :=
  if n < 10 then "000" ++ toString n
  else if n < 100 then "00" ++ toString n
  else if n < 1000 then "0" ++ toString n
  else toString n

/-- Format `d.toISOString().split('T')[0]` for a date at UTC midnight. -/
def isoOfYMD (y m d : Nat) : String := pad4 y ++ "-" ++ pad2 m ++ "-" ++ pad2 d

/-- Model of `new Date(s)` on the strings the pipeline produces: a valid ISO
`yyyy-MM-dd` string yields a comparable key (chronologically monotone
encoding `y*10000 + m*100 + d`); anything else is `NaN` (`none`). -/
def jsDateISO (s : String) : Option Nat :=
  match s.data with
  | [y1, y2, y3, y4, h1, m1, m2, h2, d1, d2] =>
    if y1.isDigit && y2.isDigit && y3.isDigit && y4.isDigit && h1 = '-' &&
       m1.isDigit && m2.isDigit && h2 = '-' && d1.isDigit && d2.isDigit then
      let y := ((digitVal y1 * 10 + digitVal y2) * 10 + digitVal y3) * 10 + digitVal y4
      let m := digitVal m1 * 10 + digitVal m2
      let d := digitVal d1 * 10 + digitVal d2
      if 1 ≤ m && m ≤ 12 && 1 ≤ d && d ≤ daysInMonth y m then
        some (y * 10000 + m * 100 + d)
      else none
    else none
  | _ => none

/-! ## date-fns `parse` model

Each layout is a token list; tokens consume greedily with no backtracking and
the whole input must be consumed (date-fns returns Invalid Date on leftover
characters).  Numeric tokens accept 1 to n digits; month-name tokens try the
wider vocabulary first and fall back (date-fns `MonthParser`); unset smaller
units default to their minimum (day 1 for month-year layouts).  The two-digit
year is normalized against the reference year (the runtime clock; fixed here
at 2026, which only moves the 19xx/20xx split, far from the 2024 gate). -/

inductive FTok where
  | D2 | M2 | Y4 | Y2 | MonA | MonW | Lit (c : Char)
deriving DecidableEq

/-- Take greedily up to `cap` leading digits; also return how many were taken. -/
def grabDigits : Nat → Nat → Nat → List Char → Nat × Nat × List Char
  | 0, acc, n, cs => (acc, n, cs)
  | _ + 1, acc, n, [] => (acc, n, [])
  | cap + 1, acc, n, c :: cs =>
    if c.isDigit then grabDigits cap (acc * 10 + digitVal c) (n + 1) cs
    else (acc, n, c :: cs)

def monthAbbrevs : List String :=
  ["jan", "feb", "mar", "apr", "may", "jun", "jul", "aug", "sep", "oct", "nov", "dec"]

def monthWides : List String :=
  ["january", "february", "march", "april", "may", "june", "july", "august",
   "september", "october", "november", "december"]

def monthNarrows : List String :=
  ["j", "f", "m", "a", "m", "j", "j", "a", "s", "o", "n", "d"]

/-- First month name (in month order) that is a case-insensitive prefix of the
input; returns the month number and the remaining input. -/
def matchMonthGo (i : Nat) : List String → List Char → Option (Nat × List Char)
  | [], _ => none
  | n :: ns, cs =>
    let p := n.data
    if (cs.take p.length).map Char.toLower = p then some (i, cs.drop p.length)
    else matchMonthGo (i + 1) ns cs

def refYear : Nat := 2026

def twoDigitYear (v : Nat) : Nat :=
  if 2000 + v > refYear + 50 then 1900 + v else 2000 + v

/-- Run one format token over the input, updating the (year, month, day)
accumulator. -/
def runFTok (t : FTok) (acc : Option Nat × Option Nat × Option Nat) (cs : List Char) :
    Option ((Option Nat × Option Nat × Option Nat) × List Char) :=
  match t with
  | .D2 =>
    let (v, n, rest) := grabDigits 2 0 0 cs
    if n = 0 then none else some ((acc.1, acc.2.1, some v), rest)
  | .M2 =>
    let (v, n, rest) := grabDigits 2 0 0 cs
    if n = 0 then none else some ((acc.1, some v, acc.2.2), rest)
  | .Y4 =>
    let (v, n, rest) := grabDigits 4 0 0 cs
    if n = 0 then none else some ((some v, acc.2.1, acc.2.2), rest)
  | .Y2 =>
    let (v, n, rest) := grabDigits 2 0 0 cs
    if n = 0 then none else some ((some (twoDigitYear v), acc.2.1, acc.2.2), rest)
  | .MonA =>
    (match matchMonthGo 1 monthAbbrevs cs with
     | some (m, rest) => some ((acc.1, some m, acc.2.2), rest)
     | none =>
       match matchMonthGo 1 monthNarrows cs with
       | some (m, rest) => some ((acc.1, some m, acc.2.2), rest)
       | none => none)
  | .MonW =>
    (match matchMonthGo 1 monthWides cs with
     | some (m, rest) => some ((acc.1, some m, acc.2.2), rest)
     | none =>
       match matchMonthGo 1 monthAbbrevs cs with
       | some (m, rest) => some ((acc.1, some m, acc.2.2), rest)
       | none =>
         match matchMonthGo 1 monthNarrows cs with
         | some (m, rest) => some ((acc.1, some m, acc.2.2), rest)
         | none => none)
  | .Lit c =>
    match cs with
    | x :: rest => if x = c then some (acc, rest) else none
    | [] => none

/-- Run a whole format; succeed only on full consumption of the input and a
valid calendar date (month 1-12, day within the month; day defaults to 1). -/
def runFmt : List FTok → (Option Nat × Option Nat × Option Nat) → List Char →
    Option (Nat × Nat × Nat)
  | [], acc, cs =>
    match acc, cs with
    | (some y, some m, dOpt), [] =>
      let d := dOpt.getD 1
      if 1 ≤ m && m ≤ 12 && 1 ≤ d && d ≤ daysInMonth y m then some (y, m, d) else none
    | _, _ => none
  | t :: ts, acc, cs =>
    match runFTok t acc cs with
    | some (acc2, rest) => runFmt ts acc2 rest
    | none => none

/-- The twelve layouts of `parseDate`, in source order. -/
def dateFormats : List (List FTok) :=
  [ [.D2, .Lit '/', .M2, .Lit '/', .Y4],           -- dd/MM/yyyy
    [.D2, .Lit '-', .M2, .Lit '-', .Y4],           -- dd-MM-yyyy
    [.M2, .Lit '/', .D2, .Lit '/', .Y4],           -- MM/dd/yyyy
    [.Y4, .Lit '-', .M2, .Lit '-', .D2],           -- yyyy-MM-dd
    [.D2, .Lit ' ', .MonA, .Lit ' ', .Y4],         -- dd MMM yyyy
    [.D2, .Lit ' ', .MonW, .Lit ' ', .Y4],         -- dd MMMM yyyy
    [.MonA, .Lit ' ', .D2, .Lit ',', .Lit ' ', .Y4],   -- MMM dd, yyyy
    [.MonW, .Lit ' ', .D2, .Lit ',', .Lit ' ', .Y4],   -- MMMM dd, yyyy
    [.D2, .Lit '/', .M2, .Lit '/', .Y2],           -- dd/MM/yy
    [.D2, .Lit '-', .M2, .Lit '-', .Y2],           -- dd-MM-yy
    [.MonA, .Lit ' ', .Y4],                        -- MMM yyyy
    [.MonW, .Lit ' ', .Y4] ]                       -- MMMM yyyy

/-- First layout that parses to a valid date with year ≥ 2024 wins; a parse
that fails the year gate falls through to the next layout. -/
def tryFormats : List (List FTok) → String → Option String
  | [], _ => none
  | f :: fs, t =>
    match runFmt f (none, none, none) t.data with
    | some (y, m, d) => if y ≥ 2024 then some (isoOfYMD y m d) else tryFormats fs t
    | none => tryFormats fs t

/-- The "continuous deadline" vocabulary of `parseDate`. -/
def contVocab : List String :=
  ["rolling", "ongoing", "continuous", "open", "throughout", "year"]

/-- The Date Normalizer `parseDate`.  `none` models the JS `null` return (the
empty string is the only falsy string); non-string inputs are outside the
model.  Otherwise: continuous vocabulary → the Rolling-Deadline sentinel;
first accepted layout → ISO date; no layout → the whitespace-normalized
input text. -/
def parseDate (s : String) : Option String :=
  if s = "" then none
  else if contVocab.any (fun k => jsIncludes (lowerStr (jsNormSpace s)) k) then
    some "Rolling Deadline"
  else
    match tryFormats dateFormats (jsNormSpace s) with
    | some iso => some iso
    | none => some (jsNormSpace s)

/-! ## Title Classifier -/

/-- The keyword vocabulary of `isValidProposal`, in source order. -/
def proposalKeywords : List String :=
  ["call", "proposal", "funding", "grant", "scheme", "research",
   "phd", "postdoc", "scientist", "startup", "fellowship",
   "application", "submission", "deadline", "award", "competition",
   "opportunity", "invitation", "tender", "rop", "cfp", "program"]

/-- Modelled from the spec (§4.4): the keyword vocabulary the spec lists for
the Title Classifier — the nineteen named terms plus the two domain
abbreviations.  Kept separate from `proposalKeywords` (translated from the
source) so the two vocabularies can be compared. -/
def specKeywords : List String :=
  ["call", "proposal", "funding", "grant", "scheme", "research",
   "phd", "postdoc", "scientist", "startup", "fellowship",
   "application", "submission", "deadline", "award", "competition",
   "opportunity", "invitation", "tender", "rop", "cfp"]

/-- The Title Classifier `isValidProposal`: length at least 10 and a
case-insensitive keyword hit.  (`!title` only excludes the empty string,
which the length test already rejects.) -/
def isValidProposal (title : String) : Bool :=
  if title = "" || title.length < 10 then false
  else proposalKeywords.any (fun k => jsIncludes (lowerStr title) (lowerStr k))

/-! ## URL model and Link Filter -/

/-- Characters admitted in a parsed hostname.  The WHATWG parser rejects an
empty host and hosts containing forbidden code points; the model admits the
alphanumeric/dot/dash/underscore hosts that occur in the corpus. -/
def isHostChar (c : Char) : Bool := c.isAlphanum || c = '.' || c = '-' || c = '_'

/-- Model of `new URL(url).hostname`: requires an http(s) scheme (every URL
the filter parses has one), strips userinfo and port, lowercases, and fails
(`none`, the thrown TypeError) on an empty or malformed host. -/
def urlHostname (url : String) : Option String :=
  let rest? : Option (List Char) :=
    if startsWithL "https://".data url.data then some (url.data.drop 8)
    else if startsWithL "http://".data url.data then some (url.data.drop 7)
    else none
  match rest? with
  | none => none
  | some rest =>
    let auth := rest.takeWhile (fun c => !(c = '/' || c = '?' || c = '#'))
    let afterAt := (auth.reverse.takeWhile (fun c => c ≠ '@')).reverse
    let host := afterAt.takeWhile (fun c => c ≠ ':')
    if host ≠ [] && host.all isHostChar then some (String.mk (host.map Char.toLower))
    else none

/-- The static denylist of `shouldSkipLink`, in source order. -/
def skipPatterns : List String :=
  ["/contact", "/about", "/home", "/login", "/register", "/sitemap",
   ".jpg", ".png", ".gif", ".pdf", ".doc", ".docx", ".xls", ".xlsx",
   "mailto:", "tel:", "javascript:", "#",
   "facebook.com", "twitter.com", "linkedin.com", "instagram.com", "youtube.com"]

def skipTail (link : String) : Bool :=
  skipPatterns.any (fun p => jsIncludes (lowerStr link) p)

/-- The Link Filter `shouldSkipLink` (true = reject).  The try/catch around
the same-domain check is modelled by the `Option` results of `urlHostname`:
any parse failure inside the guarded block returns true.  For the aggregator
(`vit.ac.in`) source the guarded block is not entered at all, so no URL is
parsed on that path. -/
def shouldSkipLink (link srcUrl : String) : Bool :=
  if jsIncludes link "](" || jsIncludes link "![" || jsIncludes link ")**[" then true
  else if !startsWithL "http".data link.data || jsIncludes link "..." then true
  else if !jsIncludes srcUrl "vit.ac.in" then
    match urlHostname srcUrl, urlHostname link with
    | some srcDomain, some linkDomain =>
      if srcDomain = linkDomain then true else skipTail link
    | _, _ => true
  else skipTail link

/-! ## Agency Resolver and Agency Attributor -/

/-- The Agency Resolver `getSourceAgency`: substring match of the source URL against the known
agency domains; `none` models the JS `null` for the VIT aggregator. -/
def getSourceAgency (sourceUrl : String) : Option String :=
  if jsIncludes sourceUrl "dst.gov.in" then some "DST"
  else if jsIncludes sourceUrl "dbtindia.gov.in" then some "DBT"
  else if jsIncludes sourceUrl "birac.nic.in" then some "BIRAC"
  else if jsIncludes sourceUrl "icmr.gov.in" then some "ICMR"
  else if jsIncludes sourceUrl "serb.gov.in" then some "SERB"
  else if jsIncludes sourceUrl "icssr.org" then some "ICSSR"
  else if jsIncludes sourceUrl "cefipra.org" then some "CEFIPRA"
  else if jsIncludes sourceUrl "igstc.org" then some "IGSTC"
  else if jsIncludes sourceUrl "tdb.gov.in" then some "TDB"
  else if jsIncludes sourceUrl "ugc.ac.in" then some "UGC"
  else if jsIncludes sourceUrl "sparc.iitkgp.ac.in" then some "SPARC"
  else if jsIncludes sourceUrl "nasi.org.in" then some "NASI"
  else if jsIncludes sourceUrl "insaindia.res.in" then some "INSA"
  else if jsIncludes sourceUrl "vit.ac.in" then none
  else some "Unknown Agency"

/-- The agency codes probed on VIT aggregator content, in source order. -/
def vitAgencyCodes : List String :=
  ["DST", "DBT", "SERB", "ICMR", "BIRAC", "UGC", "CSIR", "ICSSR",
   "DRDO", "ISRO", "DAE", "AYUSH"]

/-- First agency code (in alternation order) that is a case-insensitive
prefix of the input. -/
def codeAtCI : List String → List Char → Option String
  | [], _ => none
  | code :: rest, cs =>
    let p := code.data.map Char.toLower
    if (cs.take p.length).map Char.toLower = p then some code
    else codeAtCI rest cs

/-- Match `/\|\s*(CODE)\s*\|/i` anchored at the head of the input. -/
def pipeProbeAt (code : List Char) (cs : List Char) : Bool :=
  match cs with
  | '|' :: rest =>
    let r1 := rest.dropWhile isJsSpace
    if (r1.take code.length).map Char.toLower = code then
      match (r1.drop code.length).dropWhile isJsSpace with
      | '|' :: _ => true
      | _ => false
    else false
  | _ => false

/-- Does `p` hold for some suffix of the input (regex scan for a match)? -/
def anySuffix (p : List Char → Bool) : List Char → Bool
  | [] => p []
  | c :: cs => p (c :: cs) || anySuffix p cs

/-- First suffix (leftmost match position) at which `p` yields a value. -/
def firstHit {α : Type} (p : List Char → Option α) : List Char → Option α
  | [] => p []
  | c :: cs =>
    match p (c :: cs) with
    | some a => some a
    | none => firstHit p cs

/-- Match `/Agency:\s*(DST|…)/i` anchored at the head of the input,
returning the (canonical, uppercased) matched code. -/
def agencyLabelAt (cs : List Char) : Option String :=
  let label := "agency:".data
  if (cs.take label.length).map Char.toLower = label then
    codeAtCI vitAgencyCodes ((cs.drop label.length).dropWhile isJsSpace)
  else none

/-- The `.*?:` part of `/Department.*?:\s*(DST|…)/i`: lazily scan (never past
a line terminator) for a colon followed by optional whitespace and a code;
on a colon whose continuation fails, the colon is consumed by `.*?` and the
scan goes on. -/
def dotColonScan : List Char → Option String
  | [] => none
  | c :: rest =>
    if c = ':' then
      match codeAtCI vitAgencyCodes (rest.dropWhile isJsSpace) with
      | some code => some code
      | none => dotColonScan rest
    else if c = '\n' || c = '\r' then none
    else dotColonScan rest

/-- Match `/Department.*?:\s*(DST|…)/i` anchored at the head of the input. -/
def departmentLabelAt (cs : List Char) : Option String :=
  let label := "department".data
  if (cs.take label.length).map Char.toLower = label then
    dotColonScan (cs.drop label.length)
  else none

/-- The ordered pipe-delimiter probes of `agencyPatterns`: first pattern
(not first position) with a match anywhere in the content wins. -/
def pipeProbes : List String → List Char → Option String
  | [], _ => none
  | code :: rest, cs =>
    if anySuffix (pipeProbeAt (code.data.map Char.toLower)) cs then some code
    else pipeProbes rest cs

/-- First code whose bare token occurs case-insensitively in the title
(`titleAgencyPatterns`; the source strips the regex down to its uppercase
letters, which is the code literal itself). -/
def titleAgencyScan : List String → String → Option String
  | [], _ => none
  | code :: rest, title =>
    if jsIncludes (lowerStr title) (lowerStr code) then some code
    else titleAgencyScan rest title

/-- Characters allowed in the URL regex run `[^\s)]+`. -/
def urlRunChar (c : Char) : Bool := !isJsSpace c && c ≠ ')'

/-- Match `/https?:\/\/[^\s)]+/` anchored at the head of the input; returns
the matched URL and the remaining input. -/
def tryUrlAt : List Char → Option (List Char × List Char)
  | 'h' :: 't' :: 't' :: 'p' :: rest =>
    let (scheme, rest2) :=
      match rest with
      | 's' :: r => (['h', 't', 't', 'p', 's'], r)
      | r => (['h', 't', 't', 'p'], r)
    (match rest2 with
     | ':' :: '/' :: '/' :: r3 =>
       let run := r3.takeWhile urlRunChar
       if run = [] then none
       else some (scheme ++ [':', '/', '/'] ++ run, r3.drop run.length)
     | _ => none)
  | _ => none

/-- All matches of `/https?:\/\/[^\s)]+/g` over the input, left to right,
resuming after each match. -/
def findUrlsGo : Nat → List Char → List String
  | 0, _ => []
  | _, [] => []
  | fuel + 1, c :: cs =>
    match tryUrlAt (c :: cs) with
    | some (u, rest) => String.mk u :: findUrlsGo fuel rest
    | none => findUrlsGo fuel cs

def findUrls (s : String) : List String := findUrlsGo s.data.length s.data

/-- The Agency Attributor `extractActualAgency`.  Non-aggregator sources
resolve from the source URL (the `getD` arm is unreachable: `getSourceAgency`
is `none` only for VIT URLs).  For VIT content: pipe-cell probes, then the
`Agency:` label, then the `Department…:` label, then a bare code token in the
title, then domain fragments of the first URL in the content, then the
`Multiple Agencies` sentinel. -/
def extractActualAgency (content title srcUrl : String) : String :=
  if !jsIncludes srcUrl "vit.ac.in" then (getSourceAgency srcUrl).getD "Unknown Agency"
  else
    match pipeProbes vitAgencyCodes content.data with
    | some code => code
    | none =>
      match firstHit agencyLabelAt content.data with
      | some code => code
      | none =>
        match firstHit departmentLabelAt content.data with
        | some code => code
        | none =>
          match titleAgencyScan vitAgencyCodes title with
          | some code => code
          | none =>
            match (findUrls content).head? with
            | some url =>
              if jsIncludes url "dst.gov.in" then "DST"
              else if jsIncludes url "dbt" then "DBT"
              else if jsIncludes url "serb" then "SERB"
              else if jsIncludes url "icmr" then "ICMR"
              else if jsIncludes url "birac" then "BIRAC"
              else if jsIncludes url "ugc" then "UGC"
              else if jsIncludes url "csir" then "CSIR"
              else "Multiple Agencies"
            | none => "Multiple Agencies"

/-! ## Regex scanners for the extraction strategies -/

/-- After `](`: the URL part of `/\[(.+?)\]\((https?:\/\/[^\s)]+)\)/` and its
closing parenthesis. -/
def tryCloseUrl (cs : List Char) : Option (List Char × List Char) :=
  match tryUrlAt cs with
  | some (u, rest) =>
    match rest with
    | ')' :: r2 => some (u, r2)
    | _ => none
  | none => none

/-- Lazy title scan of the inline-link regex, anchored right after `[`: at
each position first try to close with `](url)`; on failure the candidate
closing characters are absorbed into the (lazy, line-bound) title. -/
def linkTitleGo : List Char → List Char → Option (String × String × List Char)
  | _, [] => none
  | titleRev, ']' :: '(' :: more =>
    (if titleRev ≠ [] then
      match tryCloseUrl more with
      | some (u, rest) => some (String.mk titleRev.reverse, String.mk u, rest)
      | none => linkTitleGo (']' :: titleRev) ('(' :: more)
     else linkTitleGo (']' :: titleRev) ('(' :: more))
  | titleRev, c :: cs =>
    if c = '\n' || c = '\r' then none
    else linkTitleGo (c :: titleRev) cs

def tryLinkAt : List Char → Option (String × String × List Char)
  | '[' :: rest => linkTitleGo [] rest
  | _ => none

/-- All matches of the inline-link regex over the content (strategy A's
`linkRegex`), as (title, url) pairs in match order. -/
def findMarkdownLinksGo : Nat → List Char → List (String × String)
  | 0, _ => []
  | _, [] => []
  | fuel + 1, c :: cs =>
    match tryLinkAt (c :: cs) with
    | some (t, u, rest) => (t, u) :: findMarkdownLinksGo fuel rest
    | none => findMarkdownLinksGo fuel cs

def findMarkdownLinks (s : String) : List (String × String) :=
  findMarkdownLinksGo s.data.length s.data

/-- Match the pseudo-table regex `/\|([^|]+)\|([^|]*)\|([^|]*)\|([^|]*)\|([^|]*)/`
anchored at the head: five pipes delimit one non-empty and three possibly
empty cells, the fifth cell being the greedy tail run.  Cells are returned
raw; the caller trims them (the source trims at destructuring). -/
def tryTableAt (cs : List Char) :
    Option ((List Char × List Char × List Char × List Char × List Char) × List Char) :=
  match cs with
  | '|' :: r0 =>
    let c1 := r0.takeWhile (fun c => c ≠ '|')
    if c1 = [] then none
    else
      match r0.drop c1.length with
      | '|' :: r1 =>
        let c2 := r1.takeWhile (fun c => c ≠ '|')
        (match r1.drop c2.length with
         | '|' :: r2 =>
           let c3 := r2.takeWhile (fun c => c ≠ '|')
           (match r2.drop c3.length with
            | '|' :: r3 =>
              let c4 := r3.takeWhile (fun c => c ≠ '|')
              (match r3.drop c4.length with
               | '|' :: r4 =>
                 let c5 := r4.takeWhile (fun c => c ≠ '|')
                 some ((c1, c2, c3, c4, c5), r4.drop c5.length)
               | _ => none)
            | _ => none)
         | _ => none)
      | _ => none
  | _ => none

/-- All matches of the pseudo-table regex over the content (strategy C). -/
def tableRowsGo : Nat → List Char → List (List Char × List Char × List Char × List Char × List Char)
  | 0, _ => []
  | _, [] => []
  | fuel + 1, c :: cs =>
    match tryTableAt (c :: cs) with
    | some (row, rest) => row :: tableRowsGo fuel rest
    | none => tableRowsGo fuel cs

/-- The pseudo-table matches with the source's `match.map(s => s.trim())`
applied to the five cells. -/
def tableRows (s : String) : List (String × String × String × String × String) :=
  (tableRowsGo s.data.length s.data).map
    (fun r => (String.mk (trimL r.1), String.mk (trimL r.2.1), String.mk (trimL r.2.2.1),
               String.mk (trimL r.2.2.2.1), String.mk (trimL r.2.2.2.2)))

/-! ## Date-context extraction -/

/-- Take exactly `n` leading digits. -/
def tryDigits (n : Nat) (cs : List Char) : Option (List Char × List Char) :=
  let r := cs.take n
  if r.length = n && r.all Char.isDigit then some (r, cs.drop n) else none

def isSep (c : Char) : Bool := c = '/' || c = '-'

/-- The greedy year run `\d{2,4}` (group-final, so no backtracking): up to
four digits, at least two. -/
def yearPart (cs : List Char) : Option (List Char × List Char) :=
  let run := (cs.takeWhile Char.isDigit).length
  if run ≥ 4 then tryDigits 4 cs
  else if run = 3 then tryDigits 3 cs
  else if run = 2 then tryDigits 2 cs
  else none

/-- Match `\d{n1}[\/\-]\d{n2}[\/\-]\d{2,4}` anchored at the head, for one choice of
the two bounded quantifiers. -/
def numDateCore (cs : List Char) (n1 n2 : Nat) : Option (List Char × List Char) :=
  match tryDigits n1 cs with
  | some (d1, r1) =>
    (match r1 with
     | s1 :: r2 =>
       if isSep s1 then
         match tryDigits n2 r2 with
         | some (d2, r3) =>
           (match r3 with
            | s2 :: r4 =>
              if isSep s2 then
                match yearPart r4 with
                | some (y, r5) => some (d1 ++ s1 :: d2 ++ s2 :: y, r5)
                | none => none
              else none
            | [] => none)
         | none => none
       else none
     | [] => none)
  | none => none

/-- Match `/(\d{1,2}[\/\-]\d{1,2}[\/\-]\d{2,4})/` anchored at the head, with the
regex engine's greedy-then-backtrack order on the two `\d{1,2}`. -/
def numDateAt (cs : List Char) : Option (List Char × List Char) :=
  numDateCore cs 2 2 <|> numDateCore cs 2 1 <|> numDateCore cs 1 2 <|> numDateCore cs 1 1

/-- Case-insensitive literal match anchored at the head. -/
def matchCIAt (pat : List Char) (cs : List Char) : Option (List Char) :=
  if (cs.take pat.length).map Char.toLower = pat then some (cs.drop pat.length) else none

/-- Swallow `[:\s]*` then match the numeric date (the tail of the keyword patterns 1-4);
the swallow run never backtracks since the date must start with a digit. -/
def colonSpacesDate (cs : List Char) : Option (List Char × List Char) :=
  numDateAt (cs.dropWhile (fun c => c = ':' || isJsSpace c))

/-- One keyword-anchored date pattern (`deadline`, `due`, `submit`) at the
head of the input; yields (capture, rest-after-match). -/
def kwDateAt (kw : List Char) (cs : List Char) : Option (List Char × List Char) :=
  match matchCIAt kw cs with
  | some rest => colonSpacesDate rest
  | none => none

/-- Match `/last\s+date[:\s]*(\d…)/i` anchored at the head. -/
def lastDateAt (cs : List Char) : Option (List Char × List Char) :=
  match matchCIAt "last".data cs with
  | some r1 =>
    let ws := r1.takeWhile isJsSpace
    if ws = [] then none
    else
      match matchCIAt "date".data (r1.drop ws.length) with
      | some r2 => colonSpacesDate r2
      | none => none
  | none => none

/-- Match `/throughout\s+the\s+year/i` anchored at the head; yields the rest after
the match. -/
def throughoutAt (cs : List Char) : Option (List Char) :=
  match matchCIAt "throughout".data cs with
  | some r1 =>
    let w1 := r1.takeWhile isJsSpace
    if w1 = [] then none
    else
      match matchCIAt "the".data (r1.drop w1.length) with
      | some r2 =>
        let w2 := r2.takeWhile isJsSpace
        if w2 = [] then none
        else
          match matchCIAt "year".data (r2.drop w2.length) with
          | some r3 => some r3
          | none => none
      | none => none
  | none => none

/-- Match `/(\d{1,2}\s+\w+\s+\d{4})/` anchored at the head, for one day-digit
count; the whitespace and word runs are forced maximal by their followers. -/
def p7Core (cs : List Char) (n1 : Nat) : Option (List Char × List Char) :=
  match tryDigits n1 cs with
  | some (d, r1) =>
    let w1 := r1.takeWhile isJsSpace
    if w1 = [] then none
    else
      let r2 := r1.drop w1.length
      let word := r2.takeWhile isWordCh
      if word = [] then none
      else
        let w2 := (r2.drop word.length).takeWhile isJsSpace
        if w2 = [] then none
        else
          match tryDigits 4 ((r2.drop word.length).drop w2.length) with
          | some (y, r3) => some (d ++ w1 ++ word ++ w2 ++ y, r3)
          | none => none
  | none => none

def p7At (cs : List Char) : Option (List Char × List Char) :=
  p7Core cs 2 <|> p7Core cs 1

/-- Match `/(\w+\s+\d{1,2},?\s+\d{4})/` anchored at the head, for one day-digit
count. -/
def p8Core (cs : List Char) (n1 : Nat) : Option (List Char × List Char) :=
  let word := cs.takeWhile isWordCh
  if word = [] then none
  else
    let r1 := cs.drop word.length
    let w1 := r1.takeWhile isJsSpace
    if w1 = [] then none
    else
      match tryDigits n1 (r1.drop w1.length) with
      | some (d, r2) =>
        let (comma, r3) :=
          match r2 with
          | ',' :: rr => ([','], rr)
          | rr => (([] : List Char), rr)
        let w2 := r3.takeWhile isJsSpace
        if w2 = [] then none
        else
          match tryDigits 4 (r3.drop w2.length) with
          | some (y, r4) => some (word ++ w1 ++ d ++ comma ++ w2 ++ y, r4)
          | none => none
      | none => none

def p8At (cs : List Char) : Option (List Char × List Char) :=
  p8Core cs 2 <|> p8Core cs 1

/-- Generic global-regex scan: at each position try an anchored match; on a
match emit its payload and resume after it, otherwise advance one character. -/
def scanMatches {α : Type} (tryAt : List Char → Option (α × List Char)) :
    Nat → List Char → List α
  | 0, _ => []
  | _, [] => []
  | fuel + 1, c :: cs =>
    match tryAt (c :: cs) with
    | some (a, rest) => a :: scanMatches tryAt fuel rest
    | none => scanMatches tryAt fuel cs

/-- Turn an anchored matcher that returns (capture, rest) into one that also
reports the full match text (the consumed prefix of the input). -/
def withFull (tryAt : List Char → Option (List Char × List Char)) (l : List Char) :
    Option ((List Char × List Char) × List Char) :=
  (tryAt l).map (fun r => ((l.take (l.length - r.2.length), r.1), r.2))

/-- The matches of the eight `datePatterns`, in pattern order, as
(full-match, captured-date-string) pairs.  Patterns 5-8 have the whole match
as their date string (`match[1] || match[0]`). -/
def dateTokens (cs : List Char) : List (List Char × List Char) :=
  let n := cs.length
  scanMatches (withFull (kwDateAt "deadline".data)) n cs ++
  scanMatches (withFull (kwDateAt "due".data)) n cs ++
  scanMatches (withFull (kwDateAt "submit".data)) n cs ++
  scanMatches (withFull lastDateAt) n cs ++
  scanMatches (withFull (fun l => (throughoutAt l).map (fun r =>
    (l.take (l.length - r.length), r)))) n cs ++
  scanMatches (withFull numDateAt) n cs ++
  scanMatches (withFull p7At) n cs ++
  scanMatches (withFull p8At) n cs

/-- Process one matched token: a match containing `throughout` short-circuits
the whole extraction to the Rolling-Deadline result (`none` here); otherwise
the date string is normalized, kept only when normalization changed it, is a
real date (`new Date` not NaN), and is not already present by instant. -/
def pushTok (acc : List String) (full cap : List Char) : Option (List String) :=
  if containsL "throughout".data (full.map Char.toLower) then none
  else
    match parseDate (String.mk cap) with
    | some parsed =>
      if parsed ≠ String.mk cap then
        match jsDateISO parsed with
        | some v =>
          if acc.any (fun s => jsDateISO s = some v) then some acc
          else some (acc ++ [parsed])
        | none => some acc
      else some acc
    | none => some acc

def processToks (acc : List String) : List (List Char × List Char) → Option (List String)
  | [] => some acc
  | (full, cap) :: rest =>
    match pushTok acc full cap with
    | some acc2 => processToks acc2 rest
    | none => none

/-! ## Stable sort (model of `Array.prototype.sort`) -/

/-- Insert behind every element that compares `le` to the new one (keeps the
original order of ties, as the JS sort does). -/
def insertLe {α : Type} (le : α → α → Bool) (a : α) : List α → List α
  | [] => [a]
  | b :: bs => if le b a then b :: insertLe le a bs else a :: b :: bs

/-- Stable insertion sort with a boolean "comparator ≤ 0" relation. -/
def jsSort {α : Type} (le : α → α → Bool) (l : List α) : List α :=
  l.foldl (fun acc x => insertLe le x acc) []

/-- Sort key of a collected date string. -/
def dateKeyN (s : String) : Nat := (jsDateISO s).getD 0

/-- Date-context extraction `extractDatesFromText` (its `proposalTitle`
parameter is unused in the source and omitted).  Matched tokens are
normalized and collected; survivors are deduplicated by instant and sorted
ascending; two or more dates give (earliest, latest), exactly one gives
(null, that date), none gives (null, null).  A `throughout` match
short-circuits to (null, Rolling Deadline). -/
def extractDatesFromText (text : String) : Option String × Option String :=
  match processToks [] (dateTokens text.data) with
  | none => (none, some "Rolling Deadline")
  | some ds =>
    let sorted := jsSort (fun a b => dateKeyN a ≤ dateKeyN b) ds
    (if sorted.length > 1 then sorted.head? else none, sorted.getLast?)

/-! ## The Extraction Engine -/

structure Proposal where
  title : String
  agency : String
  startDate : String
  endDate : String
  link : String
deriving DecidableEq, Repr

/-- The insertion-ordered `Map` keyed by `` `${title}|${link}` ``. -/
abbrev PMap := List (String × Proposal)

def propKey (p : Proposal) : String := p.title ++ "|" ++ p.link

def hasKey (m : PMap) (k : String) : Bool := m.any (fun e => e.1 = k)

/-- Model of `if (!proposals.has(key)) proposals.set(key, …)` — first writer wins. -/
def addProposal (m : PMap) (p : Proposal) : PMap :=
  if hasKey m (propKey p) then m else m ++ [(propKey p, p)]

/-- The record literal shared by the three strategies; JS `||` substitutes
the sentinel for a null (or empty, which cannot occur) date. -/
def buildProposal (title agency : String) (dates : Option String × Option String)
    (link : String) : Proposal :=
  { title := title, agency := agency,
    startDate := dates.1.getD "Not specified",
    endDate := dates.2.getD "Not specified",
    link := link }

/-- One inline-link candidate of strategy A. -/
def stratAStep (md srcUrl : String) (m : PMap) (tl : String × String) : PMap :=
  if isValidProposal tl.1 && !shouldSkipLink tl.2 srcUrl then
    addProposal m (buildProposal (jsTrim tl.1) (extractActualAgency md tl.1 srcUrl)
      (extractDatesFromText md) tl.2)
  else m

/-- Strategy A: inline markdown links over the whole content; dates and
agency are derived from the whole page. -/
def strategyA (md srcUrl : String) (m0 : PMap) : PMap :=
  (findMarkdownLinks md).foldl (stratAStep md srcUrl) m0

/-- Model of JS `array.slice(a, b)`. -/
def jsSlice {α : Type} (l : List α) (a b : Nat) : List α := (l.take b).drop a

/-- Model of JS `md.split('\n')` (separator-delimited pieces, empties kept). -/
def splitNlGo (cur : List Char) : List Char → List String
  | [] => [String.mk cur.reverse]
  | c :: cs =>
    if c = '\n' then String.mk cur.reverse :: splitNlGo [] cs
    else splitNlGo (c :: cur) cs

def splitNl (s : String) : List String := splitNlGo [] s.data

/-- Model of JS `array.join(' ')`. -/
def joinSp : List String → String
  | [] => ""
  | [s] => s
  | s :: rest => s ++ " " ++ joinSp rest

/-- The record strategy B builds for a title line, a context window and one
URL of that window. -/
def stratBRec (srcUrl line ctx u : String) : Proposal :=
  buildProposal (jsTrim line) (extractActualAgency ctx line srcUrl)
    (extractDatesFromText ctx) u

/-- Strategy B's inner URL loop: the first non-skipped URL whose key is fresh
is inserted and the loop breaks; a non-fresh key does not break. -/
def stratBUrls (srcUrl line ctx : String) (m : PMap) : List String → PMap
  | [] => m
  | u :: us =>
    if !shouldSkipLink u srcUrl then
      if hasKey m (propKey (stratBRec srcUrl line ctx u)) then stratBUrls srcUrl line ctx m us
      else addProposal m (stratBRec srcUrl line ctx u)
    else stratBUrls srcUrl line ctx m us

/-- One line of strategy B: a trimmed line that passes the Title Classifier
gets a context window of the 3 lines before and 4 after (untrimmed, joined
by a space); the window's URLs feed the inner loop. -/
def stratBStep (srcUrl : String) (lines : List String) (m : PMap) (i : Nat) : PMap :=
  if isValidProposal (jsTrim (lines.getD i "")) then
    stratBUrls srcUrl (jsTrim (lines.getD i ""))
      (joinSp (jsSlice lines (i - 3) (i + 4))) m
      (findUrls (joinSp (jsSlice lines (i - 3) (i + 4))))
  else m

/-- Strategy B over every line index of the content. -/
def strategyB (md srcUrl : String) (m0 : PMap) : PMap :=
  (List.range (splitNl md).length).foldl (stratBStep srcUrl (splitNl md)) m0

/-- A cell equal (case-insensitively, anchored) to a known agency code. -/
def isVitAgencyCode (col : String) : Bool :=
  vitAgencyCodes.any (fun code => lowerStr col = lowerStr code)

/-- Strategy C's agency choice: for VIT tables a cell that is exactly an
agency code beats the general attributor. -/
def stratCAgency (srcUrl : String) (cols : List String) (titleCol : String) : String :=
  if jsIncludes srcUrl "vit.ac.in" then
    match cols.find? isVitAgencyCode with
    | some a => upperStr a
    | none => extractActualAgency (joinSp cols) titleCol srcUrl
  else extractActualAgency (joinSp cols) titleCol srcUrl

/-- The non-empty trimmed cells of a pseudo-table row (`columns` in the
source). -/
def rowCols (row : String × String × String × String × String) : List String :=
  [row.1, row.2.1, row.2.2.1, row.2.2.2.1, row.2.2.2.2].filter (fun c => c ≠ "")

/-- One pseudo-table row of strategy C: among the non-empty trimmed cells,
the first passing the Title Classifier is the title and the first containing
an absolute URL is the link. -/
def stratCStep (srcUrl : String) (m : PMap)
    (row : String × String × String × String × String) : PMap :=
  match (rowCols row).find? isValidProposal,
        (rowCols row).find? (fun c => jsIncludes c "https://" || jsIncludes c "http://") with
  | some titleCol, some urlCol =>
    if !shouldSkipLink urlCol srcUrl then
      addProposal m (buildProposal (jsTrim titleCol)
        (stratCAgency srcUrl (rowCols row) titleCol)
        (extractDatesFromText (joinSp (rowCols row))) (jsTrim urlCol))
    else m
  | _, _ => m

/-- Strategy C over every pseudo-table row of the content. -/
def strategyC (md srcUrl : String) (m0 : PMap) : PMap :=
  (tableRows md).foldl (stratCStep srcUrl) m0

/-- The Extraction Engine `extractProposalsFromMarkdown`: the three
strategies write into one keyed map (first writer wins); the result is the
map's values in insertion order. -/
def extractProposalsFromMarkdown (md srcUrl : String) : List Proposal :=
  (strategyC md srcUrl (strategyB md srcUrl (strategyA md srcUrl []))).map (fun e => e.2)

/-! ## Batch Orchestrator -/

/-- One attempt's outcome from the fetch collaborator, as `scrapeWithRetry`
distinguishes them: a success envelope with markdown, a resolved
non-success envelope, a thrown 401 authentication error, or any other
thrown error. -/
inductive FetchOutcome where
  | ok (md : String)
  | notSuccessful
  | errAuth
  | errOther
deriving DecidableEq

structure ScrapeResult where
  success : Bool
  md : Option String
deriving DecidableEq, Repr

/-- The attempt loop of `scrapeWithRetry`, fed by an oracle giving each
attempt's outcome.  Returns the result and the number of fetch attempts
made.  A thrown 401 returns failure at once (no further attempts); other
thrown errors and non-success envelopes consume the remaining attempts. -/
def scrapeGo (fetch : Nat → FetchOutcome) : Nat → Nat → ScrapeResult × Nat
  | attempt, 0 => (⟨false, none⟩, attempt - 1)
  | attempt, fuel + 1 =>
    match fetch attempt with
    | .ok md => (⟨true, some md⟩, attempt)
    | .errAuth => (⟨false, none⟩, attempt)
    | .errOther => if fuel = 0 then (⟨false, none⟩, attempt) else scrapeGo fetch (attempt + 1) fuel
    | .notSuccessful => scrapeGo fetch (attempt + 1) fuel

def scrapeWithRetry (fetch : Nat → FetchOutcome) (maxRetries : Nat) : ScrapeResult × Nat :=
  scrapeGo fetch 1 maxRetries

structure BatchResult where
  proposals : List Proposal
  fetched : List String
deriving DecidableEq, Repr

/-- One iteration of `main`'s per-URL loop: fetch with `scrapeWithRetry(url, 1)`;
on failure or empty content log and continue; on success accumulate the
page's extracted records (`allProposals.push(...)`). -/
def batchStep (fetch : String → Nat → FetchOutcome) (acc : BatchResult) (url : String) :
    BatchResult :=
  let res := (scrapeWithRetry (fetch url) 1).1
  let fetched := acc.fetched ++ [url]
  match res.success, res.md with
  | true, some md =>
    if md = "" then { acc with fetched := fetched }
    else { proposals := acc.proposals ++ extractProposalsFromMarkdown md url,
           fetched := fetched }
  | _, _ => { acc with fetched := fetched }

/-- The source loop of `main` (pacing pauses and logging elided): every URL
is fetched in order, each source's failure only skipping that source. -/
def runBatch (fetch : String → Nat → FetchOutcome) (urls : List String) : BatchResult :=
  urls.foldl (batchStep fetch) ⟨[], []⟩

/-- Sort key of a record's end date (`new Date(endDate)`; `none` is NaN). -/
def endDateKey (r : Proposal) : Option Nat := jsDateISO r.endDate

/-- The deadline comparator of `main`'s final sort: two NaN dates compare
equal, a NaN date sorts after any real date, real dates compare by value. -/
def cmpDeadline (a b : Proposal) : Int :=
  match endDateKey a, endDateKey b with
  | none, none => 0
  | none, some _ => 1
  | some _, none => -1
  | some x, some y => (x : Int) - (y : Int)

def deadlineLe (a b : Proposal) : Bool := cmpDeadline a b ≤ 0

/-- Model of `uniqueProposals.sort(comparator)` — a stable sort under the deadline
comparator. -/
def sortByDeadline (l : List Proposal) : List Proposal := jsSort deadlineLe l

/-! ## Basic lemmas -/

lemma dropWhile_self {α : Type} (p : α → Bool) (l : List α) :
    (l.dropWhile p).dropWhile p = l.dropWhile p := by
  induction l with
  | nil => rfl
  | cons c cs ih =>
    by_cases h : p c
    · simp [List.dropWhile_cons, h, ih]
    · simp [List.dropWhile_cons, h]

lemma head?_dropWhile {α : Type} (p : α → Bool) (l : List α) {a : α}
    (h : (l.dropWhile p).head? = some a) : p a = false := by
  induction l with
  | nil => simp at h
  | cons c cs ih =>
    by_cases hc : p c
    · exact ih (by simpa [List.dropWhile_cons, hc] using h)
    · simp [List.dropWhile_cons, hc] at h
      simpa [h] using hc

lemma getLast?_of_suffix {α : Type} {l₁ l₂ : List α} (h : l₁ <:+ l₂) (hne : l₁ ≠ []) :
    l₂.getLast? = l₁.getLast? := by
  obtain ⟨t, rfl⟩ := h
  rw [List.getLast?_append]
  cases hl : l₁.getLast? with
  | none => exact absurd (by simpa using hl) hne
  | some a => simp

lemma dropWhile_eq_self_of_head {α : Type} {p : α → Bool} {l : List α}
    (h : ∀ a, l.head? = some a → p a = false) : l.dropWhile p = l := by
  cases l with
  | nil => rfl
  | cons c cs => simp [List.dropWhile_cons, h c rfl]

lemma trimL_idem (cs : List Char) : trimL (trimL cs) = trimL cs := by
  unfold trimL
  set A := cs.dropWhile isJsSpace with hA
  set B := A.reverse.dropWhile isJsSpace with hB
  have hBrev : B.reverse.dropWhile isJsSpace = B.reverse := by
    apply dropWhile_eq_self_of_head
    intro a ha
    rcases hBne : B with _ | _
    · simp [hBne] at ha
    · have hsuf : List.getLast? A.reverse = B.getLast? :=
        getLast?_of_suffix (hB ▸ List.dropWhile_suffix _) (by simp [hBne])
      have : A.head? = some a := by
        rw [← List.getLast?_reverse A, hsuf, ← List.head?_reverse]
        exact ha
      exact head?_dropWhile _ _ this
  rw [hBrev, List.reverse_reverse, hB, dropWhile_self]

lemma jsTrim_trimmed (cs : List Char) : jsTrim (String.mk (trimL cs)) = String.mk (trimL cs) := by
  simp [jsTrim, trimL_idem]

/-! ## Lemmas about the stable sort -/

lemma mem_insertLe {α : Type} (le : α → α → Bool) (a : α) (l : List α) (x : α) :
    x ∈ insertLe le a l ↔ x = a ∨ x ∈ l := by
  induction l with
  | nil => simp [insertLe]
  | cons b bs ih =>
    unfold insertLe
    by_cases h : le b a = true
    · rw [if_pos h]
      simp only [List.mem_cons, ih]
      tauto
    · rw [if_neg h]
      simp only [List.mem_cons]

lemma pairwise_insertLe {α : Type} {le : α → α → Bool}
    (htrans : ∀ x y z, le x y = true → le y z = true → le x z = true)
    (htotal : ∀ x y, le x y = true ∨ le y x = true)
    (a : α) {l : List α} (h : l.Pairwise (fun x y => le x y = true)) :
    (insertLe le a l).Pairwise (fun x y => le x y = true) := by
  induction l with
  | nil => simp [insertLe]
  | cons b bs ih =>
    rw [List.pairwise_cons] at h
    obtain ⟨hb, hbs⟩ := h
    unfold insertLe
    by_cases hba : le b a = true
    · rw [if_pos hba, List.pairwise_cons]
      refine ⟨?_, ih hbs⟩
      intro x hx
      rcases (mem_insertLe le a bs x).mp hx with rfl | hxbs
      · exact hba
      · exact hb x hxbs
    · have hab : le a b = true := by
        rcases htotal a b with h1 | h1
        · exact h1
        · exact absurd h1 hba
      rw [if_neg hba, List.pairwise_cons]
      refine ⟨?_, by rw [List.pairwise_cons]; exact ⟨hb, hbs⟩⟩
      intro x hx
      rcases List.mem_cons.mp hx with rfl | hxbs
      · exact hab
      · exact htrans a b x hab (hb x hxbs)

lemma mem_foldl_insertLe {α : Type} (le : α → α → Bool) (l : List α) :
    ∀ (acc : List α) (x : α),
      (x ∈ l.foldl (fun acc y => insertLe le y acc) acc ↔ x ∈ acc ∨ x ∈ l) := by
  induction l with
  | nil => simp
  | cons c cs ih =>
    intro acc x
    rw [List.foldl_cons, ih, mem_insertLe]
    simp only [List.mem_cons]
    tauto

lemma mem_jsSort {α : Type} (le : α → α → Bool) (l : List α) (x : α) :
    x ∈ jsSort le l ↔ x ∈ l := by
  unfold jsSort
  rw [mem_foldl_insertLe]
  simp

lemma pairwise_jsSort {α : Type} {le : α → α → Bool}
    (htrans : ∀ x y z, le x y = true → le y z = true → le x z = true)
    (htotal : ∀ x y, le x y = true ∨ le y x = true) (l : List α) :
    (jsSort le l).Pairwise (fun x y => le x y = true) := by
  unfold jsSort
  have step : ∀ (acc : List α), acc.Pairwise (fun x y => le x y = true) →
      (l.foldl (fun acc y => insertLe le y acc) acc).Pairwise (fun x y => le x y = true) := by
    induction l with
    | nil => intro acc h; simpa using h
    | cons c cs ih =>
      intro acc h
      rw [List.foldl_cons]
      exact ih _ (pairwise_insertLe htrans htotal c h)
  exact step [] (by simp)

/-! ## Invariants of date-context extraction -/

/-- Assert that `new Date` on this string yields a real instant. -/
def IsoOK (s : String) : Prop := (jsDateISO s).isSome

/-- The shape invariant of an `extractDatesFromText` result: an asserted
start comes with an end, both real dates in order; a Rolling-Deadline end
comes with no start. -/
def DatesOK (d : Option String × Option String) : Prop :=
  (∀ s, d.1 = some s →
    ∃ e a b, d.2 = some e ∧ jsDateISO s = some a ∧ jsDateISO e = some b ∧ a ≤ b) ∧
  (d.2 = some "Rolling Deadline" → d.1 = none)

lemma pushTok_iso {acc : List String} {full cap : List Char} {out : List String}
    (hacc : ∀ s ∈ acc, IsoOK s) (h : pushTok acc full cap = some out) :
    ∀ s ∈ out, IsoOK s := by
  unfold pushTok at h
  split at h
  · exact absurd h (by simp)
  · split at h
    · rename_i parsed hp
      split at h
      · split at h
        · rename_i v hv
          split at h
          · simp only [Option.some.injEq] at h
            exact h ▸ hacc
          · simp only [Option.some.injEq] at h
            subst h
            intro s hs
            rcases List.mem_append.mp hs with hs | hs
            · exact hacc s hs
            · simp only [List.mem_singleton] at hs
              subst hs
              simp [IsoOK, hv]
        · simp only [Option.some.injEq] at h
          exact h ▸ hacc
      · simp only [Option.some.injEq] at h
        exact h ▸ hacc
    · simp only [Option.some.injEq] at h
      exact h ▸ hacc

lemma processToks_iso :
    ∀ (toks : List (List Char × List Char)) (acc out : List String),
      (∀ s ∈ acc, IsoOK s) → processToks acc toks = some out → ∀ s ∈ out, IsoOK s := by
  intro toks
  induction toks with
  | nil =>
    intro acc out hacc h
    simp only [processToks, Option.some.injEq] at h
    exact h ▸ hacc
  | cons t ts ih =>
    intro acc out hacc h
    unfold processToks at h
    split at h
    · rename_i acc2 h2
      exact ih acc2 out (pushTok_iso hacc h2) h
    · exact absurd h (by simp)

lemma rolling_not_iso : ¬ IsoOK "Rolling Deadline" := by
  unfold IsoOK
  decide

lemma dateKeyN_of_iso {s : String} {a : Nat} (h : jsDateISO s = some a) : dateKeyN s = a := by
  simp [dateKeyN, h]

/-- The start/end assignment from any sorted list of real dates satisfies the
shape invariant. -/
lemma sortedPair_ok (l : List String) (hiso : ∀ s ∈ l, IsoOK s)
    (hsorted : l.Pairwise (fun x y => dateKeyN x ≤ dateKeyN y)) :
    DatesOK (if l.length > 1 then l.head? else none, l.getLast?) := by
  rcases l with _ | ⟨x, _ | ⟨y, t⟩⟩
  · exact ⟨by simp, by simp⟩
  · refine ⟨by simp, ?_⟩
    intro hlast
    simp only [List.getLast?_singleton, Option.some.injEq] at hlast
    have hx := hiso x (by simp)
    rw [hlast] at hx
    exact absurd hx rolling_not_iso
  · have hlen : (x :: y :: t).length > 1 := by simp
    rw [if_pos hlen]
    have hne : y :: t ≠ ([] : List String) := by simp
    have hlast_mem : (y :: t).getLast hne ∈ y :: t := List.getLast_mem hne
    have hlast_eq : (x :: y :: t).getLast? = some ((y :: t).getLast hne) := by
      rw [List.getLast?_cons_cons, List.getLast?_eq_getLast _ hne]
    constructor
    · intro s hsx
      simp only [List.head?_cons, Option.some.injEq] at hsx
      obtain rfl := hsx
      have hrel : dateKeyN x ≤ dateKeyN ((y :: t).getLast hne) :=
        List.rel_of_pairwise_cons hsorted hlast_mem
      obtain ⟨a, ha⟩ := Option.isSome_iff_exists.mp (hiso x (by simp))
      obtain ⟨b, hb⟩ :=
        Option.isSome_iff_exists.mp (hiso _ (List.mem_cons_of_mem _ hlast_mem))
      refine ⟨(y :: t).getLast hne, a, b, hlast_eq, ha, hb, ?_⟩
      rwa [dateKeyN_of_iso ha, dateKeyN_of_iso hb] at hrel
    · intro hlast
      rw [hlast_eq] at hlast
      simp only [Option.some.injEq] at hlast
      have hx := hiso _ (List.mem_cons_of_mem _ hlast_mem)
      rw [hlast] at hx
      exact absurd hx rolling_not_iso

lemma extractDates_ok (text : String) : DatesOK (extractDatesFromText text) := by
  unfold extractDatesFromText
  cases hp : processToks [] (dateTokens text.data) with
  | none => exact ⟨by simp, fun _ => rfl⟩
  | some ds =>
    have hiso : ∀ s ∈ ds, IsoOK s := processToks_iso _ _ _ (by simp) hp
    have htrans : ∀ x y z : String,
        (fun a b => (decide (dateKeyN a ≤ dateKeyN b) : Bool)) x y = true →
        (fun a b => (decide (dateKeyN a ≤ dateKeyN b) : Bool)) y z = true →
        (fun a b => (decide (dateKeyN a ≤ dateKeyN b) : Bool)) x z = true := by
      intro x y z hxy hyz
      simp only [decide_eq_true_eq] at *
      exact le_trans hxy hyz
    have htotal : ∀ x y : String,
        (fun a b => (decide (dateKeyN a ≤ dateKeyN b) : Bool)) x y = true ∨
        (fun a b => (decide (dateKeyN a ≤ dateKeyN b) : Bool)) y x = true := by
      intro x y
      simp only [decide_eq_true_eq]
      exact Nat.le_total _ _
    have hsorted := pairwise_jsSort htrans htotal ds
    have hsorted2 : (jsSort (fun a b => (decide (dateKeyN a ≤ dateKeyN b) : Bool)) ds).Pairwise
        (fun x y => dateKeyN x ≤ dateKeyN y) := by
      refine hsorted.imp ?_
      intro a b hab
      simpa using hab
    have hmem : ∀ x ∈ jsSort (fun a b => (decide (dateKeyN a ≤ dateKeyN b) : Bool)) ds,
        IsoOK x := by
      intro x hx
      exact hiso x ((mem_jsSort _ ds x).mp hx)
    exact sortedPair_ok _ hmem hsorted2

/-! ## Invariants of the extraction map -/

/-- What holds of every record a strategy inserts: its link survived the
Link Filter, and its dates have the `extractDatesFromText` shape. -/
def RecordOK (srcUrl : String) (p : Proposal) : Prop :=
  shouldSkipLink p.link srcUrl = false ∧
  (p.startDate ≠ "Not specified" →
    ∃ a b, jsDateISO p.startDate = some a ∧ jsDateISO p.endDate = some b ∧ a ≤ b) ∧
  (p.endDate = "Rolling Deadline" → p.startDate = "Not specified")

/-- Invariant of the keyed map: keys are distinct, every key is the
`title|link` key of its record, and every record is `RecordOK`. -/
def MapOK (srcUrl : String) (m : PMap) : Prop :=
  (m.map (fun e => e.1)).Nodup ∧ ∀ e ∈ m, e.1 = propKey e.2 ∧ RecordOK srcUrl e.2

lemma buildProposal_ok {src l : String} (t ag ctx : String)
    (hl : shouldSkipLink l src = false) :
    RecordOK src (buildProposal t ag (extractDatesFromText ctx) l) := by
  obtain ⟨h1, h2⟩ := extractDates_ok ctx
  refine ⟨hl, ?_, ?_⟩
  · intro hne
    cases hd1 : (extractDatesFromText ctx).1 with
    | none =>
      exact absurd (by simp [buildProposal, hd1]) hne
    | some s =>
      obtain ⟨e, a, b, he, ha, hb, hab⟩ := h1 s hd1
      exact ⟨a, b, by simp [buildProposal, hd1, ha], by simp [buildProposal, he, hb], hab⟩
  · intro hroll
    cases hd2 : (extractDatesFromText ctx).2 with
    | none =>
      rw [show (buildProposal t ag (extractDatesFromText ctx) l).endDate
            = ((extractDatesFromText ctx).2).getD "Not specified" from rfl, hd2] at hroll
      exact absurd hroll (by decide)
    | some e =>
      rw [show (buildProposal t ag (extractDatesFromText ctx) l).endDate
            = ((extractDatesFromText ctx).2).getD "Not specified" from rfl, hd2] at hroll
      simp only [Option.getD_some] at hroll
      subst hroll
      have := h2 hd2
      simp [buildProposal, this]

lemma addProposal_ok {src : String} {m : PMap} {p : Proposal}
    (hm : MapOK src m) (hp : RecordOK src p) : MapOK src (addProposal m p) := by
  obtain ⟨hnd, hall⟩ := hm
  unfold addProposal
  by_cases h : hasKey m (propKey p) = true
  · rw [if_pos h]
    exact ⟨hnd, hall⟩
  · rw [if_neg h]
    have hfresh : ∀ e ∈ m, ¬ e.1 = propKey p := by
      intro e he
      have hf : hasKey m (propKey p) = false := Bool.not_eq_true _ ▸ Bool.eq_false_iff.mpr h
      simp only [hasKey, List.any_eq_false] at hf
      simpa using hf e he
    constructor
    · rw [List.map_append, List.nodup_append]
      refine ⟨hnd, by simp, ?_⟩
      intro a ha
      simp only [List.mem_map] at ha
      obtain ⟨e, he, rfl⟩ := ha
      simp only [List.map_cons, List.map_nil, List.mem_singleton]
      exact hfresh e he
    · intro e he
      rcases List.mem_append.mp he with he | he
      · exact hall e he
      · simp only [List.mem_singleton] at he
        subst he
        exact ⟨rfl, hp⟩

lemma stratAStep_ok {md src : String} {m : PMap} {tl : String × String}
    (hm : MapOK src m) : MapOK src (stratAStep md src m tl) := by
  unfold stratAStep
  by_cases hg : (isValidProposal tl.1 && !shouldSkipLink tl.2 src) = true
  · rw [if_pos hg]
    have hskip : shouldSkipLink tl.2 src = false := by
      have hg2 := hg
      simp only [Bool.and_eq_true, Bool.not_eq_true'] at hg2
      exact hg2.2
    exact addProposal_ok hm (buildProposal_ok _ _ _ hskip)
  · rw [if_neg hg]
    exact hm

lemma stratBUrls_ok {src line ctx : String} :
    ∀ (urls : List String) (m : PMap), MapOK src m →
      MapOK src (stratBUrls src line ctx m urls) := by
  intro urls
  induction urls with
  | nil => intro m hm; exact hm
  | cons u us ih =>
    intro m hm
    unfold stratBUrls
    by_cases hg : (!shouldSkipLink u src) = true
    · rw [if_pos hg]
      by_cases hk : hasKey m (propKey (stratBRec src line ctx u)) = true
      · rw [if_pos hk]
        exact ih m hm
      · rw [if_neg hk]
        exact addProposal_ok hm (buildProposal_ok _ _ _ (by simpa using hg))
    · rw [if_neg hg]
      exact ih m hm

lemma stratBStep_ok {src : String} {lines : List String} {m : PMap} {i : Nat}
    (hm : MapOK src m) : MapOK src (stratBStep src lines m i) := by
  unfold stratBStep
  by_cases hg : isValidProposal (jsTrim (lines.getD i "")) = true
  · rw [if_pos hg]
    exact stratBUrls_ok _ _ hm
  · rw [if_neg hg]
    exact hm

/-- Every cell of a trimmed pseudo-table row is fixed by a further trim. -/
def TrimRow (row : String × String × String × String × String) : Prop :=
  jsTrim row.1 = row.1 ∧ jsTrim row.2.1 = row.2.1 ∧ jsTrim row.2.2.1 = row.2.2.1 ∧
  jsTrim row.2.2.2.1 = row.2.2.2.1 ∧ jsTrim row.2.2.2.2 = row.2.2.2.2

lemma tableRows_trim {md : String} {row : String × String × String × String × String}
    (h : row ∈ tableRows md) : TrimRow row := by
  unfold tableRows at h
  simp only [List.mem_map] at h
  obtain ⟨raw, _, rfl⟩ := h
  exact ⟨jsTrim_trimmed _, jsTrim_trimmed _, jsTrim_trimmed _, jsTrim_trimmed _,
    jsTrim_trimmed _⟩

lemma stratCStep_ok {src : String} {m : PMap} {row : String × String × String × String × String}
    (hrow : TrimRow row) (hm : MapOK src m) : MapOK src (stratCStep src m row) := by
  unfold stratCStep
  cases ht : (rowCols row).find? isValidProposal with
  | none => exact hm
  | some titleCol =>
    cases hu : (rowCols row).find?
        (fun c => jsIncludes c "https://" || jsIncludes c "http://") with
    | none => exact hm
    | some urlCol =>
      dsimp only
      by_cases hg : (!shouldSkipLink urlCol src) = true
      · rw [if_pos hg]
        have hmem : urlCol ∈ [row.1, row.2.1, row.2.2.1, row.2.2.2.1, row.2.2.2.2] :=
          List.mem_of_mem_filter (List.mem_of_find?_eq_some hu)
        have htf : jsTrim urlCol = urlCol := by
          obtain ⟨h1, h2, h3, h4, h5⟩ := hrow
          simp only [List.mem_cons, List.not_mem_nil, or_false] at hmem
          rcases hmem with rfl | rfl | rfl | rfl | rfl <;> assumption
        have hskip : shouldSkipLink (jsTrim urlCol) src = false := by
          rw [htf]
          simpa using hg
        exact addProposal_ok hm (buildProposal_ok _ _ _ hskip)
      · rw [if_neg hg]
        exact hm

lemma foldl_mapOK {α : Type} {src : String} {step : PMap → α → PMap}
    (hstep : ∀ m x, MapOK src m → MapOK src (step m x)) :
    ∀ (l : List α) (m : PMap), MapOK src m → MapOK src (l.foldl step m) := by
  intro l
  induction l with
  | nil => intro m hm; exact hm
  | cons x xs ih =>
    intro m hm
    rw [List.foldl_cons]
    exact ih _ (hstep m x hm)

lemma foldl_mapOK_mem {α : Type} {src : String} {step : PMap → α → PMap} :
    ∀ (l : List α), (∀ m x, x ∈ l → MapOK src m → MapOK src (step m x)) →
      ∀ (m : PMap), MapOK src m → MapOK src (l.foldl step m) := by
  intro l
  induction l with
  | nil => intro _ m hm; exact hm
  | cons x xs ih =>
    intro hstep m hm
    rw [List.foldl_cons]
    exact ih (fun m y hy => hstep m y (List.mem_cons_of_mem _ hy)) _
      (hstep m x (List.mem_cons_self _ _) hm)

/-- The Extraction Engine's map satisfies the full invariant. -/
lemma extract_mapOK (md src : String) :
    MapOK src (strategyC md src (strategyB md src (strategyA md src []))) := by
  have h0 : MapOK src ([] : PMap) := ⟨by simp, by simp⟩
  have hA : MapOK src (strategyA md src []) :=
    foldl_mapOK (fun m x hm => stratAStep_ok hm) _ _ h0
  have hB : MapOK src (strategyB md src (strategyA md src [])) :=
    foldl_mapOK (fun m x hm => stratBStep_ok hm) _ _ hA
  exact foldl_mapOK_mem _
    (fun m row hrow hm => stratCStep_ok (tableRows_trim hrow) hm) _ hB

/-- Every emitted record satisfies `RecordOK`. -/
lemma extract_recordOK {md src : String} {r : Proposal}
    (h : r ∈ extractProposalsFromMarkdown md src) : RecordOK src r := by
  unfold extractProposalsFromMarkdown at h
  simp only [List.mem_map] at h
  obtain ⟨e, he, rfl⟩ := h
  exact ((extract_mapOK md src).2 e he).2

/-! ## Concrete scenario inputs -/

/-- The spec's end-to-end scenario content: the SERB markdown link inside a
paragraph mentioning the deadline. -/
def mdScenario : String :=
  "Apply now. [SERB Core Research Grant Call 2025](https://serb.gov.in/crg/apply) Deadline: 31/12/2025."

def serbSrc : String := "https://serb.gov.in/page/show/63"

/-- The scenario with the proposal link pointing at an external domain, so
the Link Filter admits it. -/
def mdScenarioExt : String :=
  "[SERB Core Research Grant Call 2025](https://dst.gov.in/apply123) Deadline: 31/12/2025"

/-- Content carrying two dates, so the extractor asserts a start date. -/
def mdTwoDates : String :=
  "[Big Research Grant Call 2025](https://other.org/grantcall) Open: 01/01/2025 Deadline: 31/12/2025"

def dstSrc : String := "https://dst.gov.in/call-for-proposals"

/-! ## Claims -/

/-- C3: the Date Normalizer maps "15/03/2025" to "2025-03-15", "rolling" to
the Rolling-Deadline sentinel, and "15/03/1999" to the literal input
unchanged (every layout's parse fails the year-2024 gate). -/
theorem C3_parseDate_examples :
    parseDate "15/03/2025" = some "2025-03-15" ∧
    parseDate "rolling" = some "Rolling Deadline" ∧
    parseDate "15/03/1999" = some "15/03/1999" :=
  ⟨by decide, by decide, by decide⟩

/-- C8 (counterexample): "program xyz123" is accepted by the Title
Classifier although it contains no term of the vocabulary the spec lists
(the 19 named terms plus the two domain abbreviations `rop` and `cfp`): the
source's vocabulary additionally contains "program". -/
theorem C8_counterexample :
    isValidProposal "program xyz123" = true ∧
    specKeywords.all (fun k => !(jsIncludes (lowerStr "program xyz123") (lowerStr k))) = true :=
  ⟨by decide, by decide⟩

/-- C8 (amended): the Title Classifier accepts exactly the titles of length
at least 10 containing, case-insensitively, a term of the source's 22-word
vocabulary — the spec's 21 terms plus "program". -/
theorem C8_isValidProposal_iff (title : String) :
    isValidProposal title = true ↔
      (10 ≤ title.length ∧
        ∃ k ∈ proposalKeywords, jsIncludes (lowerStr title) (lowerStr k) = true) := by
  unfold isValidProposal
  split
  · rename_i h
    simp only [Bool.or_eq_true, decide_eq_true_eq] at h
    constructor
    · intro hf
      exact absurd hf (by simp)
    · rintro ⟨hlen, -⟩
      rcases h with h | h
      · subst h
        simp at hlen
      · omega
  · rename_i h
    simp only [Bool.or_eq_true, decide_eq_true_eq, not_or] at h
    obtain ⟨-, hlen⟩ := h
    rw [List.any_eq_true]
    constructor
    · rintro ⟨k, hk, hinc⟩
      exact ⟨by omega, k, hk, hinc⟩
    · rintro ⟨-, k, hk, hinc⟩
      exact ⟨k, hk, hinc⟩

/-- C9 (counterexample): on "ab  cd" (no continuous-vocabulary term, no
matching layout) the Date Normalizer returns "ab cd", the input with its
internal whitespace run collapsed — not the input with only leading and
trailing whitespace removed, which would be "ab  cd" itself. -/
theorem C9_counterexample :
    parseDate "ab  cd" = some "ab cd" ∧
    jsTrim "ab  cd" = "ab  cd" ∧
    ("ab cd" : String) ≠ "ab  cd" :=
  ⟨by decide, by decide, by decide⟩

/-- C9 (amended): the Date Normalizer returns `null` exactly on the empty
string (among strings), and when no continuous-vocabulary term matches and
no layout parses it returns the input trimmed AND with every internal
whitespace run collapsed to a single space. -/
theorem C9_parseDate_fallthrough :
    (∀ s : String, parseDate s = none ↔ s = "") ∧
    (∀ s : String, s ≠ "" →
      contVocab.any (fun k => jsIncludes (lowerStr (jsNormSpace s)) k) = false →
      tryFormats dateFormats (jsNormSpace s) = none →
      parseDate s = some (jsNormSpace s)) := by
  constructor
  · intro s
    constructor
    · intro h
      by_contra hne
      unfold parseDate at h
      rw [if_neg hne] at h
      split at h
      · exact absurd h (by simp)
      · split at h <;> simp_all
    · intro h
      subst h
      rfl
  · intro s hne hvocab hfmt
    unfold parseDate
    rw [if_neg hne, if_neg (by simp [hvocab]), hfmt]

/-- C9 (witness). -/
theorem C9_witness : parseDate "xy  zw" = some "xy zw" :=
  C9_parseDate_fallthrough.2 "xy  zw" (by decide) (by decide) (by decide)

/-- C6 (counterexample): "http://" is a malformed URL (its host is empty, so
URL parsing throws), yet for the aggregator source the Link Filter never
parses it — the same-domain block is skipped entirely — and no other rule
fires, so the link is accepted. -/
theorem C6_counterexample :
    urlHostname "http://" = none ∧
    shouldSkipLink "http://" "https://vit.ac.in/research/call-for-proposals" = false :=
  ⟨by decide, by decide⟩

/-- C6 (amended): for a non-aggregator source, a candidate link that fails
URL parsing is always rejected (the thrown parse error is caught and the
link skipped); for the aggregator source URL parsing is not attempted. -/
theorem C6_malformed_rejected (link srcUrl : String)
    (hagg : jsIncludes srcUrl "vit.ac.in" = false)
    (hmal : urlHostname link = none) :
    shouldSkipLink link srcUrl = true := by
  unfold shouldSkipLink
  split
  · rfl
  · split
    · rfl
    · rw [if_pos (by simp [hagg]), hmal]
      cases urlHostname srcUrl <;> rfl

/-- C6 (witness). -/
theorem C6_witness : shouldSkipLink "http://" "https://serb.gov.in/page/show/63" = true :=
  C6_malformed_rejected "http://" "https://serb.gov.in/page/show/63" (by decide) (by decide)

/-- C7: the Link Filter rejects the nested-markdown artifact link for every
source; it rejects any link whose parsed domain equals the source's parsed
domain when the source is not the aggregator; and for the aggregator source
it accepts any link that trips no other rejection rule (artifact markers,
non-http prefix, truncation marker, static denylist). -/
theorem C7_linkFilter :
    (∀ srcUrl : String,
      shouldSkipLink "http://example.com/a](http://example.com/b)" srcUrl = true) ∧
    (∀ link srcUrl host : String, jsIncludes srcUrl "vit.ac.in" = false →
      urlHostname srcUrl = some host → urlHostname link = some host →
      shouldSkipLink link srcUrl = true) ∧
    (∀ link srcUrl : String, jsIncludes srcUrl "vit.ac.in" = true →
      jsIncludes link "](" = false → jsIncludes link "![" = false →
      jsIncludes link ")**[" = false → startsWithL "http".data link.data = true →
      jsIncludes link "..." = false → skipTail link = false →
      shouldSkipLink link srcUrl = false) := by
  refine ⟨?_, ?_, ?_⟩
  · intro srcUrl
    unfold shouldSkipLink
    rw [if_pos (by decide)]
  · intro link srcUrl host hagg hsrc hlink
    unfold shouldSkipLink
    split
    · rfl
    · split
      · rfl
      · rw [if_pos (by simp [hagg]), hsrc, hlink]
        simp
  · intro link srcUrl hagg h1 h2 h3 h4 h5 h6
    unfold shouldSkipLink
    rw [if_neg (by simp [h1, h2, h3]), if_neg (by simp [h4, h5]),
      if_neg (by simp [hagg]), h6]

/-- C7 (witness). -/
theorem C7_witness :
    shouldSkipLink "http://example.com/a](http://example.com/b)" serbSrc = true ∧
    shouldSkipLink "https://serb.gov.in/crg/apply" serbSrc = true ∧
    shouldSkipLink "https://vit.ac.in/funding/call123"
      "https://vit.ac.in/research/call-for-proposals" = false :=
  ⟨C7_linkFilter.1 serbSrc,
   C7_linkFilter.2.1 "https://serb.gov.in/crg/apply" serbSrc "serb.gov.in"
     (by decide) (by decide) (by decide),
   C7_linkFilter.2.2 "https://vit.ac.in/funding/call123"
     "https://vit.ac.in/research/call-for-proposals"
     (by decide) (by decide) (by decide) (by decide) (by decide) (by decide) (by decide)⟩

/-- C1 (counterexample): the spec's end-to-end scenario yields no record at
all — the proposal link lives on the same `serb.gov.in` domain as the source
page, and SERB is not the aggregator, so the Link Filter rejects it in every
strategy. -/
theorem C1_counterexample :
    extractProposalsFromMarkdown mdScenario serbSrc = [] := by decide

/-- C1 (amended): for any page content fetched from the SERB source, the
Extraction Engine never emits a record whose link is the same-domain
`https://serb.gov.in/crg/apply`; in particular the spec's scenario content
yields no record at all. -/
theorem C1_same_domain_never_emitted (md : String) (r : Proposal)
    (h : r ∈ extractProposalsFromMarkdown md serbSrc) :
    r.link ≠ "https://serb.gov.in/crg/apply" := by
  intro hlink
  have hok := (extract_recordOK h).1
  rw [hlink] at hok
  have htrue : shouldSkipLink "https://serb.gov.in/crg/apply" serbSrc = true := by decide
  rw [hok] at htrue
  exact Bool.false_ne_true htrue

/-- C1 (witness). -/
theorem C1_witness :
    (⟨"SERB Core Research Grant Call 2025", "SERB", "Not specified", "2025-12-31",
      "https://dst.gov.in/apply123"⟩ : Proposal).link ≠ "https://serb.gov.in/crg/apply" :=
  C1_same_domain_never_emitted mdScenarioExt _ (by decide)

/-- C4: the Extraction Engine never emits two records with the same
(title, link) key, and the merge step is first-writer-wins: inserting a
record whose key is already in the map leaves the map unchanged, so a later
strategy never overwrites an already-found record. -/
theorem C4_dedup_first_writer_wins :
    (∀ md srcUrl : String, (extractProposalsFromMarkdown md srcUrl).Pairwise
      (fun a b => ¬(a.title = b.title ∧ a.link = b.link))) ∧
    (∀ (m : PMap) (p : Proposal), hasKey m (propKey p) = true → addProposal m p = m) := by
  constructor
  · intro md src
    obtain ⟨hnd, hshape⟩ := extract_mapOK md src
    unfold extractProposalsFromMarkdown
    rw [List.pairwise_map]
    have hp := List.pairwise_map.mp hnd
    refine List.Pairwise.imp_of_mem ?_ hp
    intro e1 e2 h1 h2 hne hcontra
    obtain ⟨ht, hl⟩ := hcontra
    apply hne
    rw [(hshape e1 h1).1, (hshape e2 h2).1]
    unfold propKey
    rw [ht, hl]
  · intro m p h
    unfold addProposal
    rw [if_pos h]

/-- C4 (witness): two candidate records sharing a key but with different
agencies — the merge keeps the first-found record. -/
theorem C4_witness :
    (extractProposalsFromMarkdown mdScenarioExt serbSrc).Pairwise
      (fun a b => ¬(a.title = b.title ∧ a.link = b.link)) ∧
    addProposal
      [(propKey ⟨"Research Grant Call 2025", "DST", "Not specified", "Not specified",
        "https://a.example/c"⟩,
        ⟨"Research Grant Call 2025", "DST", "Not specified", "Not specified",
        "https://a.example/c"⟩)]
      ⟨"Research Grant Call 2025", "SERB", "Not specified", "2025-12-31",
        "https://a.example/c"⟩ =
    [(propKey ⟨"Research Grant Call 2025", "DST", "Not specified", "Not specified",
        "https://a.example/c"⟩,
        ⟨"Research Grant Call 2025", "DST", "Not specified", "Not specified",
        "https://a.example/c"⟩)] :=
  ⟨C4_dedup_first_writer_wins.1 mdScenarioExt serbSrc,
   C4_dedup_first_writer_wins.2 _ _ (by decide)⟩

/-- C10: in every emitted record, an asserted start date (anything but the
"Not specified" sentinel) comes with a real ISO end date and does not exceed
it, and a Rolling-Deadline end date always comes with no asserted start. -/
theorem C10_date_invariant (md srcUrl : String) (r : Proposal)
    (h : r ∈ extractProposalsFromMarkdown md srcUrl) :
    (r.startDate ≠ "Not specified" →
      ∃ a b, jsDateISO r.startDate = some a ∧ jsDateISO r.endDate = some b ∧ a ≤ b) ∧
    (r.endDate = "Rolling Deadline" → r.startDate = "Not specified") :=
  ⟨(extract_recordOK h).2.1, (extract_recordOK h).2.2⟩

/-- C10 (witness): a page with an opening and a closing date yields a record
whose start "2025-01-01" and end "2025-12-31" are both real dates in order. -/
theorem C10_witness :
    ∃ a b, jsDateISO "2025-01-01" = some a ∧ jsDateISO "2025-12-31" = some b ∧ a ≤ b :=
  (C10_date_invariant mdTwoDates dstSrc
    ⟨"Big Research Grant Call 2025", "DST", "2025-01-01", "2025-12-31",
      "https://other.org/grantcall"⟩ (by decide)).1 (by decide)

/-! ### C5: the final deadline sort -/

def recJun : Proposal :=
  ⟨"Grant Call One 2025", "DST", "Not specified", "2025-06-01", "https://x.example/a"⟩

def recNS : Proposal :=
  ⟨"Grant Call Two 2025", "DBT", "Not specified", "Not specified", "https://x.example/b"⟩

def recJan : Proposal :=
  ⟨"Grant Call Three 2025", "UGC", "Not specified", "2025-01-15", "https://x.example/c"⟩

lemma cmpDeadline_trans {a b c : Proposal} (hab : deadlineLe a b = true)
    (hbc : deadlineLe b c = true) : deadlineLe a c = true := by
  unfold deadlineLe cmpDeadline at *
  simp only [decide_eq_true_eq] at *
  revert hab hbc
  cases endDateKey a <;> cases endDateKey b <;> cases endDateKey c <;>
    dsimp only <;> intro hab hbc <;> omega

lemma cmpDeadline_total (a b : Proposal) :
    deadlineLe a b = true ∨ deadlineLe b a = true := by
  unfold deadlineLe cmpDeadline
  simp only [decide_eq_true_eq]
  cases endDateKey a <;> cases endDateKey b <;> dsimp only <;> omega

/-- C5: the final cross-source sort is ascending by end date under the
deadline comparator; the comparator returns 0 for two unparseable end dates
and for two equal dates, and never lets an unparseable end date precede a
parseable one; on the spec's three end dates it yields 2025-01-15,
2025-06-01, then "Not specified" last. -/
theorem C5_deadline_sort :
    (∀ l : List Proposal, (sortByDeadline l).Pairwise (fun a b => deadlineLe a b = true)) ∧
    (∀ a b : Proposal, endDateKey a = none → endDateKey b = none → cmpDeadline a b = 0) ∧
    (∀ (a b : Proposal) (v : Nat), endDateKey a = some v → endDateKey b = some v →
      cmpDeadline a b = 0) ∧
    (∀ (a b : Proposal) (v : Nat), endDateKey a = none → endDateKey b = some v →
      deadlineLe a b = false) ∧
    sortByDeadline [recJun, recNS, recJan] = [recJan, recJun, recNS] := by
  refine ⟨?_, ?_, ?_, ?_, by decide⟩
  · intro l
    exact @pairwise_jsSort Proposal deadlineLe
      (fun x y z hxy hyz => cmpDeadline_trans hxy hyz) cmpDeadline_total l
  · intro a b ha hb
    unfold cmpDeadline
    rw [ha, hb]
  · intro a b v ha hb
    unfold cmpDeadline
    rw [ha, hb]
    simp
  · intro a b v ha hb
    unfold deadlineLe cmpDeadline
    rw [ha, hb]
    simp

/-- C5 (witness). -/
theorem C5_witness :
    (sortByDeadline [recJun, recNS, recJan]).Pairwise (fun a b => deadlineLe a b = true) ∧
    cmpDeadline recNS recNS = 0 ∧
    cmpDeadline recJun recJun = 0 ∧
    deadlineLe recNS recJun = false :=
  ⟨C5_deadline_sort.1 [recJun, recNS, recJan],
   C5_deadline_sort.2.1 recNS recNS (by decide) (by decide),
   C5_deadline_sort.2.2.1 recJun recJun 20250601 (by decide) (by decide),
   C5_deadline_sort.2.2.2.1 recNS recJun 20250601 (by decide) (by decide)⟩

/-! ### C2: authentication failures in the batch loop -/

/-- A fetch oracle whose first source always rejects with a 401 and whose
other sources succeed with extractable content. -/
def fetchAuthThenOk : String → Nat → FetchOutcome := fun url _ =>
  if url = "https://a.example/one" then .errAuth
  else .ok "[DST Research Grant Call 2025](https://dst.gov.in/call123) Deadline: 31/12/2025"

/-- C2 (counterexample): with the first source rejecting authentication, the
orchestrator still fetches the second source and extracts its records — the
run is not aborted. -/
theorem C2_counterexample :
    (runBatch fetchAuthThenOk ["https://a.example/one", "https://example.org/news"]).fetched
      = ["https://a.example/one", "https://example.org/news"] ∧
    (runBatch fetchAuthThenOk
      ["https://a.example/one", "https://example.org/news"]).proposals ≠ [] :=
  ⟨by decide, by decide⟩

/-- The records a single source contributes, independent of the
accumulator. -/
def batchDelta (fetch : String → Nat → FetchOutcome) (url : String) : List Proposal :=
  match (scrapeWithRetry (fetch url) 1).1.success, (scrapeWithRetry (fetch url) 1).1.md with
  | true, some md => if md = "" then [] else extractProposalsFromMarkdown md url
  | _, _ => []

lemma batchStep_eq (fetch : String → Nat → FetchOutcome) (acc : BatchResult) (url : String) :
    batchStep fetch acc url =
      ⟨acc.proposals ++ batchDelta fetch url, acc.fetched ++ [url]⟩ := by
  unfold batchStep batchDelta
  cases hs : (scrapeWithRetry (fetch url) 1).1.success <;>
    cases hm : (scrapeWithRetry (fetch url) 1).1.md <;> simp_all
  split <;> simp

lemma batch_proposals_shift (fetch : String → Nat → FetchOutcome) :
    ∀ (l : List String) (ps : List Proposal) (fs : List String),
      (l.foldl (batchStep fetch) ⟨ps, fs⟩).proposals =
        ps ++ (l.foldl (batchStep fetch) ⟨[], []⟩).proposals := by
  intro l
  induction l with
  | nil => intro ps fs; simp
  | cons u us ih =>
    intro ps fs
    rw [List.foldl_cons, List.foldl_cons, batchStep_eq, batchStep_eq]
    rw [ih (ps ++ batchDelta fetch u), ih ([] ++ batchDelta fetch u)]
    simp

/-- C2 (amended): a 401 from the fetch collaborator is indeed not retried —
the retry loop returns failure after that single attempt — but it does not
abort the run: the orchestrator merely skips that source, and the remaining
sources contribute exactly the records they would contribute anyway (only
the pre-run API-key self-test terminates the process). -/
theorem C2_auth_not_retried_run_continues :
    (∀ (fetch : Nat → FetchOutcome) (maxRetries : Nat), fetch 1 = .errAuth →
      1 ≤ maxRetries → scrapeWithRetry fetch maxRetries = (⟨false, none⟩, 1)) ∧
    (∀ (fetch : String → Nat → FetchOutcome) (a : String) (rest : List String),
      fetch a 1 = .errAuth →
      (runBatch fetch (a :: rest)).proposals = (runBatch fetch rest).proposals) := by
  constructor
  · intro fetch maxRetries hauth hpos
    cases maxRetries with
    | zero => omega
    | succ n =>
      unfold scrapeWithRetry scrapeGo
      rw [hauth]
  · intro fetch a rest hauth
    unfold runBatch
    rw [List.foldl_cons, batchStep_eq]
    have hdelta : batchDelta fetch a = [] := by
      unfold batchDelta
      have : scrapeWithRetry (fetch a) 1 = (⟨false, none⟩, 1) := by
        unfold scrapeWithRetry scrapeGo
        rw [hauth]
      rw [this]
    rw [hdelta]
    exact batch_proposals_shift fetch rest [] [a]

/-- C2 (witness). -/
theorem C2_witness :
    scrapeWithRetry (fun _ => .errAuth) 2 = (⟨false, none⟩, 1) ∧
    (runBatch fetchAuthThenOk ["https://a.example/one", "https://example.org/news"]).proposals
      = (runBatch fetchAuthThenOk ["https://example.org/news"]).proposals :=
  ⟨C2_auth_not_retried_run_continues.1 (fun _ => .errAuth) 2 rfl (by decide),
   C2_auth_not_retried_run_continues.2 fetchAuthThenOk "https://a.example/one"
     ["https://example.org/news"] (by decide)⟩

end Shodh
